import Mathlib

/-!
Shallow embedding of `src/memoryallocator.h` (namespace ATL): a fixed-size
block memory pool `MemoryAllocator<block_size, blocks>` and the typed layer
`TypeAllocator<T, blocks>`.

Modelling choices, each taken directly from the source:
* Byte memory is a total function `Mem : Nat → Nat`; the arena is
  zero-initialised (`std::memset(data_, 0, bytes_allocated)`), so the
  initial memory is the constant 0 function and every later state is that
  function overlaid with the writes the code performs.  `memsetRange`
  models `std::memset(ptr, v, len)`.
* Addresses are natural numbers; `d` stands for the arena base pointer
  `data_` (an arbitrary parameter).  `vp_size = sizeof(void*) = 8` on the
  LP64 platforms the code targets, `pad_bytes = 2` as in the source.
* The intrusive singly linked free list (`List* free_list_`, with the
  `next` link overlaid on the first `vp_size` bytes of each free slot) is
  modelled as a Lean `List Nat` of slot base addresses, head first.  The
  link bytes themselves are never read by any guard check, so the list
  abstraction is exact for every operation modelled here.
* `throw std::runtime_error` in `Allocate` is an error result that leaves
  the state unchanged (the code throws before mutating anything);
  `std::abort()` in `Free` is the result `FreeResult.nullAbort` or
  `FreeResult.corruptedAbort`, both of which terminate the process
  (`terminatesProcess`), also before mutating anything.
* Null pointers are the address 0 (`if (!block)`).
* The typed layer `TypeAllocator<T, blocks>` is parameterised by
  `a = alignof(T)` and `s = sizeof(T)`; its base pool has
  `block_size = a + s`.  `std::align` is `stdAlign`.  A constructor of `T`
  that may throw is modelled by the flag `ctorOk`: when it is `false` the
  placement `new(aligned_storage) T(args...)` raises, and — exactly as in
  the source, which has no try/catch — the raw slot is *not* returned to
  the pool.  `TFree` returns, besides the `Free` outcome, the number of
  times `~T()` ran (the source runs it once, before calling the raw
  `Free`, whenever the pointer is non-null).
-/

namespace ATL

/-- Guard byte pattern for a free slot (`Pattern::UNALLOCATED = 0xAA`). -/
def UNALLOCATED : Nat := 0xAA

/-- Guard byte pattern for an allocated slot (`Pattern::ALLOCATED = 0xBB`). -/
def ALLOCATED : Nat := 0xBB

/-- Number of guard bytes per slot (`pad_bytes = 2`). -/
def pad_bytes : Nat := 2

/-- Size of the free-list link (`vp_size = sizeof(void*)`, 8 on LP64). -/
def vp_size : Nat := 8

/-- Size of one slot: link + guard bytes + payload (`hb_size`). -/
def hb_size (block_size : Nat) : Nat := vp_size + pad_bytes + block_size

/-- Byte memory: address to byte value. -/
def Mem : Type := Nat → Nat

/-- Write one byte. -/
def memWrite (m : Mem) (a v : Nat) : Mem := fun x => if x = a then v else m x

/-- Model of `std::memset(a, v, k)`: write `v` to `a, a+1, …, a+k-1`. -/
def memsetRange (m : Mem) (a v : Nat) : Nat → Mem
  | 0 => m
  | k + 1 => memWrite (memsetRange m a v k) (a + k) v

/-- State of one `MemoryAllocator`: the free list (slot base addresses,
head first) and the arena bytes. -/
structure AllocState where
  free_list : List Nat
  mem : Mem

/-- Errors thrown by `MemoryAllocator::Allocate` (`std::runtime_error`). -/
inductive AllocError where
  | outOfMemory
  | corruptedBlock
deriving DecidableEq

/-- Outcomes of `MemoryAllocator::Free`; the two `abort` constructors model
`std::abort()`. -/
inductive FreeResult where
  | ok
  | nullAbort
  | corruptedAbort
deriving DecidableEq

/-- Whether a `Free` outcome terminates the process (`std::abort()` does;
a normal return does not). -/
def terminatesProcess : FreeResult → Bool
  | .ok => false
  | .nullAbort => true
  | .corruptedAbort => true

/-- The guard check loop `for (i = 0; i < pad_bytes; ++i) if (mem[i] != pat) …`:
true when all `pad_bytes` bytes at `a` equal `pat`. -/
def guardOk (m : Mem) (a pat : Nat) : Bool :=
  (List.range pad_bytes).all fun i => m (a + i) == pat

/-- `MemoryAllocator::push_list`. -/
def push_list (st : AllocState) (l : Nat) : AllocState :=
  { st with free_list := l :: st.free_list }

/-- Base address of slot `i` in an arena based at `d` with payload size
`bs` (`data_ + i * hb_size`). -/
def slotAddr (d bs i : Nat) : Nat := d + i * hb_size bs

/-- Payload address of slot `i`: what `Allocate` hands to the caller. -/
def payloadAddr (d bs i : Nat) : Nat := slotAddr d bs i + vp_size + pad_bytes

/-- `MemoryAllocator::MemoryAllocator()`: zero the arena, then for each
slot `i = 0, …, n-1` write the UNALLOCATED guard pattern and push the slot
onto the free list. -/
def initState (d bs n : Nat) : AllocState :=
  (List.range n).foldl
    (fun st i =>
      push_list
        { st with
            mem := memsetRange st.mem (slotAddr d bs i + vp_size) UNALLOCATED pad_bytes }
        (slotAddr d bs i))
    { free_list := [], mem := fun _ => 0 }

/-- `MemoryAllocator::Allocate`: throw OutOfMemory on an empty free list;
check the head slot's guard bytes (throwing CorruptedBlock on mismatch,
before popping); pop, set the guard bytes to ALLOCATED, and return the
payload address.  Errors leave the state unchanged (the code throws before
mutating). -/
def Allocate (st : AllocState) : Except AllocError Nat × AllocState :=
  match st.free_list with
  | [] => (.error .outOfMemory, st)
  | head :: rest =>
      let memory := head + vp_size
      if guardOk st.mem memory UNALLOCATED then
        (.ok (memory + pad_bytes),
          { free_list := rest
            mem := memsetRange st.mem memory ALLOCATED pad_bytes })
      else
        (.error .corruptedBlock, st)

/-- `MemoryAllocator::Free`: abort on a null pointer; step back `pad_bytes`
to the guard region and abort if it is not ALLOCATED; otherwise rewrite
the guard to UNALLOCATED and push the slot (guard address minus `vp_size`)
back on the free list.  Aborts happen before any mutation. -/
def Free (st : AllocState) (block : Nat) : FreeResult × AllocState :=
  if block = 0 then (.nullAbort, st)
  else
    let mem0 := block - pad_bytes
    if guardOk st.mem mem0 ALLOCATED then
      (.ok,
        push_list { st with mem := memsetRange st.mem mem0 UNALLOCATED pad_bytes }
          (mem0 - vp_size))
    else
      (.corruptedAbort, st)

/-- `MemoryAllocator::CanAllocate`: the free list head is non-null. -/
def CanAllocate (st : AllocState) : Bool :=
  !st.free_list.isEmpty

/-- Model of `std::align(a, s, p, space)`: the first address `≥ p` that is
a multiple of `a`, provided the object of size `s` placed there still ends
within `p + space`; otherwise null. -/
def stdAlign (a s p space : Nat) : Option Nat :=
  let aligned := (p + a - 1) / a * a
  if aligned + s ≤ p + space then some aligned else none

/-- `TypeAllocator::AlignCheck` for `a = alignof(T)`, `s = sizeof(T)`:
`std::align` over the slot with `space = b_size = block_size = a + s`. -/
def AlignCheck (a s memory : Nat) : Option Nat :=
  stdAlign a s memory (a + s)

/-- Outcomes of the typed `TypeAllocator::Allocate`. -/
inductive TAllocResult where
  | outOfMemory
  | corruptedBlock
  | allocationFailed
  | ctorError
  | ok (p : Nat)
deriving DecidableEq

/-- `TypeAllocator::Allocate(args...)`: take a raw slot from the base
pool (propagating its exceptions), run `AlignCheck` (throwing
AllocationFailed on null), then placement-construct `T` there.  `ctorOk`
is whether `T`'s constructor succeeds; when it throws, the exception
propagates and — as in the source, which has no handler — the raw slot is
not returned to the pool. -/
def TAllocate (a s : Nat) (ctorOk : Bool) (st : AllocState) : TAllocResult × AllocState :=
  match Allocate st with
  | (.error .outOfMemory, st') => (.outOfMemory, st')
  | (.error .corruptedBlock, st') => (.corruptedBlock, st')
  | (.ok raw, st') =>
      match AlignCheck a s raw with
      | none => (.allocationFailed, st')
      | some aligned_storage =>
          if ctorOk then (.ok aligned_storage, st') else (.ctorError, st')

/-- `TypeAllocator::Free(block)`: abort on null, destruct `T` at `block`,
then hand `block` itself — not the raw address the pool's `Allocate`
returned — to the raw `Free`.  The third component counts how many times
`~T()` ran. -/
def TFree (st : AllocState) (block : Nat) : FreeResult × AllocState × Nat :=
  if block = 0 then (.nullAbort, st, 0)
  else
    let r := Free st block
    (r.1, r.2, 1)

/-- Run `k` consecutive `Allocate` calls, collecting the results in call
order. -/
def allocTimes : Nat → AllocState → List (Except AllocError Nat) × AllocState
  | 0, st => ([], st)
  | k + 1, st =>
      let r := Allocate st
      let rest := allocTimes k r.2
      (r.1 :: rest.1, rest.2)

/-- A pool state together with the ghost list of payload addresses handed
out by `Allocate` and not yet freed (newest first). -/
structure PoolSt where
  st : AllocState
  outst : List Nat

/-- One successful operation on the pool: a successful `Allocate`, or a
successful `Free` of an outstanding pointer (the only pointers the
contract permits a caller to free). -/
inductive Step : PoolSt → PoolSt → Prop
  | alloc (st : AllocState) (out : List Nat) (p : Nat) (st' : AllocState) :
      Allocate st = (.ok p, st') → Step ⟨st, out⟩ ⟨st', p :: out⟩
  | free (st : AllocState) (out : List Nat) (p : Nat) (st' : AllocState) :
      p ∈ out → Free st p = (.ok, st') → Step ⟨st, out⟩ ⟨st', out.erase p⟩

/-- States reachable from a freshly constructed pool by successful
operations. -/
def Reachable (d bs n : Nat) (s : PoolSt) : Prop :=
  Relation.ReflTransGen Step ⟨initState d bs n, []⟩ s

/-- Guard-byte contents dictated by the slot states: slots with index in
`fIdx` (free) carry UNALLOCATED guards, slots with index in `oIdx`
(outstanding) carry ALLOCATED guards. -/
def GoodMem (d bs : Nat) (m : Mem) (fIdx oIdx : List Nat) : Prop :=
  (∀ i ∈ fIdx, ∀ j < pad_bytes, m (slotAddr d bs i + vp_size + j) = UNALLOCATED) ∧
  (∀ i ∈ oIdx, ∀ j < pad_bytes, m (slotAddr d bs i + vp_size + j) = ALLOCATED)

/-- The pool invariant: the free list and the outstanding list are the
slot addresses (resp. payload addresses) of two lists of slot indices
that together are a permutation of `0, …, n-1`, and every guard byte
matches its slot's state. -/
def Inv (d bs n : Nat) (s : PoolSt) : Prop :=
  ∃ fIdx oIdx : List Nat,
    s.st.free_list = fIdx.map (slotAddr d bs) ∧
    s.outst = oIdx.map (payloadAddr d bs) ∧
    (fIdx ++ oIdx).Perm (List.range n) ∧
    GoodMem d bs s.st.mem fIdx oIdx

theorem pad_bytes_eq : pad_bytes = 2 := rfl

theorem vp_size_eq : vp_size = 8 := rfl

theorem memsetRange_apply (m : Mem) (a v k x : Nat) :
    memsetRange m a v k x = if a ≤ x ∧ x < a + k then v else m x := by
  induction k with
  | zero =>
      have h : ¬(a ≤ x ∧ x < a) := by omega
      simp [memsetRange, h]
  | succ k ih =>
      simp only [memsetRange, memWrite]
      by_cases hx : x = a + k
      · subst hx
        have h2 : a ≤ a + k ∧ a + k < a + (k + 1) := by omega
        simp [h2]
      · simp only [hx, if_false]
        rw [ih]
        by_cases h1 : a ≤ x ∧ x < a + k
        · have h2 : a ≤ x ∧ x < a + (k + 1) := by omega
          simp [h1, h2]
        · have h2 : ¬(a ≤ x ∧ x < a + (k + 1)) := by omega
          simp [h1, h2]

theorem guardOk_iff (m : Mem) (a pat : Nat) :
    guardOk m a pat = true ↔ ∀ j < pad_bytes, m (a + j) = pat := by
  simp [guardOk, List.all_eq_true, List.mem_range, beq_iff_eq]

theorem hb_size_ge (bs : Nat) : vp_size + pad_bytes ≤ hb_size bs := by
  simp [hb_size]

theorem slotAddr_step (d bs i i' : Nat) (h : i < i') :
    slotAddr d bs i + hb_size bs ≤ slotAddr d bs i' := by
  have : (i + 1) * hb_size bs ≤ i' * hb_size bs :=
    Nat.mul_le_mul_right _ h
  simp only [slotAddr]
  calc d + i * hb_size bs + hb_size bs = d + (i + 1) * hb_size bs := by ring
    _ ≤ d + i' * hb_size bs := by omega

theorem payloadAddr_injective (d bs : Nat) :
    Function.Injective (payloadAddr d bs) := by
  intro i i' h
  by_contra hne
  have hpad := pad_bytes_eq
  have hvp := vp_size_eq
  rcases Nat.lt_or_ge i i' with hlt | hge
  · have := slotAddr_step d bs i i' hlt
    have hbpos := hb_size_ge bs
    simp only [payloadAddr] at h
    omega
  · have hlt : i' < i := by omega
    have := slotAddr_step d bs i' i hlt
    have hbpos := hb_size_ge bs
    simp only [payloadAddr] at h
    omega

theorem guard_mem_disjoint (d bs i i' j : Nat) (hne : i ≠ i') (hj : j < pad_bytes) :
    slotAddr d bs i + vp_size + j < slotAddr d bs i' + vp_size ∨
      slotAddr d bs i' + vp_size + pad_bytes ≤ slotAddr d bs i + vp_size + j := by
  have hbpos := hb_size_ge bs
  have hpad : pad_bytes = 2 := rfl
  have hvp : vp_size = 8 := rfl
  rcases Nat.lt_or_ge i i' with hlt | hge
  · have := slotAddr_step d bs i i' hlt
    left
    omega
  · have hlt : i' < i := by omega
    have := slotAddr_step d bs i' i hlt
    right
    omega

theorem memsetRange_guard_other (m : Mem) (d bs i i' j v : Nat) (hne : i ≠ i')
    (hj : j < pad_bytes) :
    memsetRange m (slotAddr d bs i' + vp_size) v pad_bytes
        (slotAddr d bs i + vp_size + j) =
      m (slotAddr d bs i + vp_size + j) := by
  rw [memsetRange_apply]
  rcases guard_mem_disjoint d bs i i' j hne hj with h | h
  · have : ¬(slotAddr d bs i' + vp_size ≤ slotAddr d bs i + vp_size + j ∧
        slotAddr d bs i + vp_size + j < slotAddr d bs i' + vp_size + pad_bytes) := by
      omega
    simp [this]
  · have : ¬(slotAddr d bs i' + vp_size ≤ slotAddr d bs i + vp_size + j ∧
        slotAddr d bs i + vp_size + j < slotAddr d bs i' + vp_size + pad_bytes) := by
      omega
    simp [this]

theorem memsetRange_guard_self (m : Mem) (a v j : Nat) (hj : j < pad_bytes) :
    memsetRange m a v pad_bytes (a + j) = v := by
  rw [memsetRange_apply]
  have : a ≤ a + j ∧ a + j < a + pad_bytes := by omega
  simp [this]

theorem initState_succ (d bs n : Nat) :
    initState d bs (n + 1) =
      push_list
        { initState d bs n with
            mem := memsetRange (initState d bs n).mem (slotAddr d bs n + vp_size)
              UNALLOCATED pad_bytes }
        (slotAddr d bs n) := by
  simp [initState, List.range_succ, List.foldl_append]

theorem initState_free_list (d bs n : Nat) :
    (initState d bs n).free_list = ((List.range n).map (slotAddr d bs)).reverse := by
  induction n with
  | zero => rfl
  | succ n ih =>
      rw [initState_succ]
      simp [push_list, List.range_succ, ih]

theorem initState_mem_guard (d bs n : Nat) :
    ∀ i < n, ∀ j < pad_bytes,
      (initState d bs n).mem (slotAddr d bs i + vp_size + j) = UNALLOCATED := by
  induction n with
  | zero => intro i hi; omega
  | succ n ih =>
      intro i hi j hj
      rw [initState_succ]
      simp only [push_list]
      by_cases hin : i = n
      · subst hin
        exact memsetRange_guard_self _ _ _ _ hj
      · rw [memsetRange_guard_other (initState d bs n).mem d bs i n j UNALLOCATED hin hj]
        exact ih i (by omega) j hj

theorem range_succ_reverse_map {α : Type} (f : Nat → α) (m : Nat) :
    ((List.range (m + 1)).map f).reverse = f m :: ((List.range m).map f).reverse := by
  rw [List.range_succ]
  simp

theorem Allocate_fresh_step (d bs m : Nat) (st : AllocState)
    (hfl : st.free_list = ((List.range (m + 1)).map (slotAddr d bs)).reverse)
    (hmem : ∀ i < m + 1, ∀ j < pad_bytes,
      st.mem (slotAddr d bs i + vp_size + j) = UNALLOCATED) :
    Allocate st = (.ok (payloadAddr d bs m),
      { free_list := ((List.range m).map (slotAddr d bs)).reverse
        mem := memsetRange st.mem (slotAddr d bs m + vp_size) ALLOCATED pad_bytes }) := by
  obtain ⟨fl, mm⟩ := st
  simp only at hfl hmem
  rw [range_succ_reverse_map] at hfl
  subst hfl
  have hguard : guardOk mm (slotAddr d bs m + vp_size) UNALLOCATED = true := by
    rw [guardOk_iff]
    intro j hj
    exact hmem m (Nat.lt_succ_self m) j hj
  simp [Allocate, hguard, payloadAddr]

theorem allocTimes_fresh_run (d bs : Nat) :
    ∀ k m : Nat, k ≤ m → ∀ st : AllocState,
    st.free_list = ((List.range m).map (slotAddr d bs)).reverse →
    (∀ i < m, ∀ j < pad_bytes, st.mem (slotAddr d bs i + vp_size + j) = UNALLOCATED) →
    (allocTimes k st).1 =
        (List.range k).map (fun t => Except.ok (payloadAddr d bs (m - 1 - t))) ∧
      (allocTimes k st).2.free_list = ((List.range (m - k)).map (slotAddr d bs)).reverse ∧
      ∀ i < m - k, ∀ j < pad_bytes,
        (allocTimes k st).2.mem (slotAddr d bs i + vp_size + j) = UNALLOCATED := by
  intro k
  induction k with
  | zero =>
      intro m hkm st hfl hmem
      exact ⟨rfl, hfl, hmem⟩
  | succ k ih =>
      intro m hkm st hfl hmem
      obtain ⟨m', rfl⟩ : ∃ m'', m = m'' + 1 := ⟨m - 1, by omega⟩
      have hstep := Allocate_fresh_step d bs m' st hfl hmem
      have hfl1 : (Allocate st).2.free_list =
          ((List.range m').map (slotAddr d bs)).reverse := by
        rw [hstep]
      have hmem1 : ∀ i < m', ∀ j < pad_bytes,
          (Allocate st).2.mem (slotAddr d bs i + vp_size + j) = UNALLOCATED := by
        intro i hi j hj
        rw [hstep]
        simp only
        rw [memsetRange_guard_other st.mem d bs i m' j ALLOCATED (by omega) hj]
        exact hmem i (by omega) j hj
      obtain ⟨ih1, ih2, ih3⟩ := ih m' (by omega) (Allocate st).2 hfl1 hmem1
      refine ⟨?_, ?_, ?_⟩
      · show (Allocate st).1 :: (allocTimes k (Allocate st).2).1 = _
        rw [ih1, hstep]
        rw [List.range_succ_eq_map]
        simp only [List.map_cons, Nat.add_sub_cancel, Nat.sub_zero, List.map_map]
        congr 1
        apply List.map_congr_left
        intro t ht
        simp only [Function.comp]
        congr 2
        omega
      · show (allocTimes k (Allocate st).2).2.free_list = _
        have heq : m' + 1 - (k + 1) = m' - k := by omega
        rw [heq]
        exact ih2
      · show ∀ i < m' + 1 - (k + 1), ∀ j < pad_bytes,
            (allocTimes k (Allocate st).2).2.mem (slotAddr d bs i + vp_size + j) =
              UNALLOCATED
        have heq : m' + 1 - (k + 1) = m' - k := by omega
        rw [heq]
        exact ih3

theorem initState_run (d bs n k : Nat) (hk : k ≤ n) :
    (allocTimes k (initState d bs n)).1 =
        (List.range k).map (fun t => Except.ok (payloadAddr d bs (n - 1 - t))) ∧
      (allocTimes k (initState d bs n)).2.free_list =
        ((List.range (n - k)).map (slotAddr d bs)).reverse ∧
      ∀ i < n - k, ∀ j < pad_bytes,
        (allocTimes k (initState d bs n)).2.mem (slotAddr d bs i + vp_size + j) =
          UNALLOCATED :=
  allocTimes_fresh_run d bs k n hk (initState d bs n) (initState_free_list d bs n)
    (initState_mem_guard d bs n)

theorem Allocate_empty (st : AllocState) (h : st.free_list = []) :
    Allocate st = (.error .outOfMemory, st) := by
  obtain ⟨fl, mm⟩ := st
  simp only at h
  subst h
  simp [Allocate]

theorem Allocate_corrupt (st : AllocState) (head : Nat) (rest : List Nat)
    (hfl : st.free_list = head :: rest)
    (hg : guardOk st.mem (head + vp_size) UNALLOCATED = false) :
    Allocate st = (.error .corruptedBlock, st) := by
  obtain ⟨fl, mm⟩ := st
  simp only at hfl hg
  subst hfl
  simp [Allocate, hg]

theorem Allocate_cons (st : AllocState) (head : Nat) (rest : List Nat)
    (hfl : st.free_list = head :: rest)
    (hg : guardOk st.mem (head + vp_size) UNALLOCATED = true) :
    Allocate st = (.ok (head + vp_size + pad_bytes),
      { free_list := rest
        mem := memsetRange st.mem (head + vp_size) ALLOCATED pad_bytes }) := by
  obtain ⟨fl, mm⟩ := st
  simp only at hfl hg
  subst hfl
  simp [Allocate, hg]

theorem Allocate_ok_inv (st : AllocState) (p : Nat) (h : (Allocate st).1 = .ok p) :
    ∃ head rest, st.free_list = head :: rest ∧
      guardOk st.mem (head + vp_size) UNALLOCATED = true ∧
      p = head + vp_size + pad_bytes ∧
      (Allocate st).2 =
        AllocState.mk rest (memsetRange st.mem (head + vp_size) ALLOCATED pad_bytes) := by
  obtain ⟨fl, mm⟩ := st
  cases fl with
  | nil => simp [Allocate] at h
  | cons head rest =>
      by_cases hg : guardOk mm (head + vp_size) UNALLOCATED = true
      · have hc := Allocate_cons ⟨head :: rest, mm⟩ head rest rfl hg
        rw [hc] at h ⊢
        simp only [Except.ok.injEq] at h
        exact ⟨head, rest, rfl, hg, h.symm, rfl⟩
      · have hc := Allocate_corrupt ⟨head :: rest, mm⟩ head rest rfl
          (by simpa using hg)
        rw [hc] at h
        simp at h

theorem Free_ok_compute (st : AllocState) (p : Nat) (hp : p ≠ 0)
    (hg : guardOk st.mem (p - pad_bytes) ALLOCATED = true) :
    Free st p = (.ok,
      push_list { st with mem := memsetRange st.mem (p - pad_bytes) UNALLOCATED pad_bytes }
        (p - pad_bytes - vp_size)) := by
  simp [Free, hp, hg]

theorem Free_corrupt_compute (st : AllocState) (p : Nat) (hp : p ≠ 0)
    (hg : guardOk st.mem (p - pad_bytes) ALLOCATED = false) :
    Free st p = (.corruptedAbort, st) := by
  simp [Free, hp, hg]

/-- C1: for every pool constructed with `N ≥ 1` blocks and no prior
operations, the first `N` `Allocate()` calls all succeed and return
pairwise-distinct, non-overlapping payload addresses (consecutive returned
payload intervals of size `block_size` are separated: each later address
plus `block_size` stays below each earlier address), and the `(N+1)`-th
call fails with OutOfMemory leaving the pool state unchanged. -/
theorem C1_fresh_pool_exhaustion (d bs n : Nat) (hbs : 1 ≤ bs) (hn : 1 ≤ n) :
    (∀ k < n, ((allocTimes n (initState d bs n)).1)[k]? =
        some (Except.ok (payloadAddr d bs (n - 1 - k)))) ∧
      (∀ k l, k < l → l < n →
        payloadAddr d bs (n - 1 - l) + bs ≤ payloadAddr d bs (n - 1 - k)) ∧
      Allocate (allocTimes n (initState d bs n)).2 =
        (.error .outOfMemory, (allocTimes n (initState d bs n)).2) := by
  obtain ⟨h1, h2, _⟩ := initState_run d bs n n le_rfl
  refine ⟨?_, ?_, ?_⟩
  · intro k hk
    rw [h1]
    simp [List.getElem?_map, List.getElem?_range hk]
  · intro k l hkl hln
    have hstep := slotAddr_step d bs (n - 1 - l) (n - 1 - k) (by omega)
    have hhb : hb_size bs = vp_size + pad_bytes + bs := rfl
    simp only [payloadAddr]
    omega
  · apply Allocate_empty
    rw [h2]
    simp

/-- C1 witness: the concrete pool `d = 0`, `block_size = 1`, `blocks = 2`. -/
theorem C1_fresh_pool_exhaustion_witness :
    ((1 : Nat) ≤ 1 ∧ (1 : Nat) ≤ 2) ∧
      ((∀ k < 2, ((allocTimes 2 (initState 0 1 2)).1)[k]? =
          some (Except.ok (payloadAddr 0 1 (2 - 1 - k)))) ∧
        (∀ k l, k < l → l < 2 →
          payloadAddr 0 1 (2 - 1 - l) + 1 ≤ payloadAddr 0 1 (2 - 1 - k)) ∧
        Allocate (allocTimes 2 (initState 0 1 2)).2 =
          (.error .outOfMemory, (allocTimes 2 (initState 0 1 2)).2)) :=
  ⟨⟨le_rfl, by decide⟩, C1_fresh_pool_exhaustion 0 1 2 le_rfl (by decide)⟩

theorem slotAddr_succ (d bs i : Nat) :
    slotAddr d bs (i + 1) = slotAddr d bs i + hb_size bs := by
  simp only [slotAddr, Nat.succ_mul]
  ring

theorem payloadAddr_succ (d bs i : Nat) :
    payloadAddr d bs (i + 1) = payloadAddr d bs i + hb_size bs := by
  simp only [payloadAddr, slotAddr_succ]
  ring

/-- C10: on a freshly constructed pool the construction pushes slots in
increasing index order, so the first `Allocate` returns the payload of the
highest-indexed slot `n - 1`, the `k`-th of `n` consecutive `Allocate`
calls returns the payload of slot `n - 1 - k` (strictly descending), and
consecutive returned addresses are exactly `hb_size block_size =
sizeof(void*) + pad_bytes + block_size` bytes apart. -/
theorem C10_descending_allocation_order (d bs n : Nat) (hbs : 1 ≤ bs) (hn : 1 ≤ n) :
    (Allocate (initState d bs n)).1 = .ok (payloadAddr d bs (n - 1)) ∧
      (∀ k < n, ((allocTimes n (initState d bs n)).1)[k]? =
        some (Except.ok (payloadAddr d bs (n - 1 - k)))) ∧
      ∀ k, k + 1 < n →
        payloadAddr d bs (n - 1 - k) =
          payloadAddr d bs (n - 1 - (k + 1)) + hb_size bs := by
  obtain ⟨h1, _, _⟩ := initState_run d bs n n le_rfl
  refine ⟨?_, ?_, ?_⟩
  · obtain ⟨m, rfl⟩ : ∃ m, n = m + 1 := ⟨n - 1, by omega⟩
    have hstep := Allocate_fresh_step d bs m (initState d bs (m + 1))
      (initState_free_list d bs (m + 1)) (initState_mem_guard d bs (m + 1))
    rw [hstep]
    simp
  · intro k hk
    rw [h1]
    simp [List.getElem?_map, List.getElem?_range hk]
  · intro k hk
    have heq : n - 1 - k = (n - 1 - (k + 1)) + 1 := by omega
    rw [heq, payloadAddr_succ]

/-- C10 witness: the concrete pool `d = 0`, `block_size = 1`, `blocks = 2`. -/
theorem C10_descending_allocation_order_witness :
    ((1 : Nat) ≤ 1 ∧ (1 : Nat) ≤ 2) ∧
      ((Allocate (initState 0 1 2)).1 = .ok (payloadAddr 0 1 1) ∧
        (∀ k < 2, ((allocTimes 2 (initState 0 1 2)).1)[k]? =
          some (Except.ok (payloadAddr 0 1 (2 - 1 - k)))) ∧
        ∀ k, k + 1 < 2 →
          payloadAddr 0 1 (2 - 1 - k) =
            payloadAddr 0 1 (2 - 1 - (k + 1)) + hb_size 1) :=
  ⟨⟨le_rfl, by decide⟩, C10_descending_allocation_order 0 1 2 le_rfl (by decide)⟩

/-- C2: from any state in which `Allocate()` succeeds returning `p`,
`Free(p)` succeeds and the immediately following `Allocate()` succeeds and
returns the same address `p` (LIFO reuse of the most recently freed
slot). -/
theorem C2_lifo_reuse (st : AllocState) (p : Nat) (h : (Allocate st).1 = .ok p) :
    (Free (Allocate st).2 p).1 = .ok ∧
      (Allocate (Free (Allocate st).2 p).2).1 = .ok p := by
  obtain ⟨head, rest, hfl, hg, hp, hst1⟩ := Allocate_ok_inv st p h
  have hvp := vp_size_eq
  have hpad := pad_bytes_eq
  have hp0 : p ≠ 0 := by omega
  have hsub : p - pad_bytes = head + vp_size := by omega
  have hg1 : guardOk (Allocate st).2.mem (p - pad_bytes) ALLOCATED = true := by
    rw [guardOk_iff, hst1, hsub]
    intro j hj
    exact memsetRange_guard_self st.mem (head + vp_size) ALLOCATED j hj
  have hfree := Free_ok_compute (Allocate st).2 p hp0 hg1
  constructor
  · rw [hfree]
  · have hsub2 : p - pad_bytes - vp_size = head := by omega
    have hfl2 : (Free (Allocate st).2 p).2.free_list = head :: rest := by
      rw [hfree]
      simp [push_list, hst1, hsub2]
    have hg2 : guardOk (Free (Allocate st).2 p).2.mem (head + vp_size)
        UNALLOCATED = true := by
      rw [guardOk_iff]
      intro j hj
      rw [hfree]
      simp only [push_list, hsub]
      exact memsetRange_guard_self _ (head + vp_size) UNALLOCATED j hj
    have := Allocate_cons (Free (Allocate st).2 p).2 head rest hfl2 hg2
    rw [this, hp]

/-- C2 witness: the concrete pool `d = 0`, `block_size = 1`, `blocks = 1`,
where the fresh `Allocate` returns payload address 10. -/
theorem C2_lifo_reuse_witness :
    (Allocate (initState 0 1 1)).1 = .ok 10 ∧
      ((Free (Allocate (initState 0 1 1)).2 10).1 = .ok ∧
        (Allocate (Free (Allocate (initState 0 1 1)).2 10).2).1 = .ok 10) :=
  ⟨rfl, C2_lifo_reuse (initState 0 1 1) 10 rfl⟩

theorem guardOk_false_of_byte (m : Mem) (a pat j : Nat) (hj : j < pad_bytes)
    (hne : m (a + j) ≠ pat) : guardOk m a pat = false := by
  cases hgb : guardOk m a pat with
  | false => rfl
  | true => exact absurd ((guardOk_iff m a pat).1 hgb j hj) hne

theorem unallocated_ne_allocated : UNALLOCATED ≠ ALLOCATED := by decide

/-- C3: once a pointer `p` from a successful `Allocate` has been freed, a
second `Free(p)` detects the guard bytes (now UNALLOCATED) and aborts the
transition with the corrupted-block signal, leaving the state unchanged;
more generally any guard mismatch on `Free` aborts with the state
unchanged, and any guard mismatch on the free-list head makes `Allocate`
fail with CorruptedBlock with the state unchanged.  (On `Free` the source
delivers the corrupted-block signal by `std::abort()`, on `Allocate` by a
thrown `std::runtime_error`; both happen before any mutation.) -/
theorem C3_guard_mismatch_aborts (st : AllocState) (p : Nat)
    (h : (Allocate st).1 = .ok p) :
    (Free (Allocate st).2 p).1 = .ok ∧
      Free (Free (Allocate st).2 p).2 p =
        (.corruptedAbort, (Free (Allocate st).2 p).2) ∧
      (∀ st' : AllocState, guardOk st'.mem (p - pad_bytes) ALLOCATED = false →
        Free st' p = (.corruptedAbort, st')) ∧
      ∀ st' : AllocState, ∀ head : Nat, ∀ rest : List Nat,
        st'.free_list = head :: rest →
        guardOk st'.mem (head + vp_size) UNALLOCATED = false →
        Allocate st' = (.error .corruptedBlock, st') := by
  obtain ⟨head, rest, hfl, hg, hp, hst1⟩ := Allocate_ok_inv st p h
  have hvp := vp_size_eq
  have hpad := pad_bytes_eq
  have hp0 : p ≠ 0 := by omega
  have hsub : p - pad_bytes = head + vp_size := by omega
  have hg1 : guardOk (Allocate st).2.mem (p - pad_bytes) ALLOCATED = true := by
    rw [guardOk_iff, hst1, hsub]
    intro j hj
    exact memsetRange_guard_self st.mem (head + vp_size) ALLOCATED j hj
  have hfree := Free_ok_compute (Allocate st).2 p hp0 hg1
  refine ⟨by rw [hfree], ?_, ?_, ?_⟩
  · have hg2 : guardOk (Free (Allocate st).2 p).2.mem (p - pad_bytes)
        ALLOCATED = false := by
      apply guardOk_false_of_byte _ _ _ 0 (by omega)
      rw [hfree]
      simp only [push_list, Nat.add_zero]
      rw [memsetRange_apply]
      have hin : p - pad_bytes ≤ p - pad_bytes ∧
          p - pad_bytes < p - pad_bytes + pad_bytes := by omega
      simp only [hin, and_self, if_true]
      exact unallocated_ne_allocated
    exact Free_corrupt_compute _ p hp0 hg2
  · intro st' hg'
    exact Free_corrupt_compute st' p hp0 hg'
  · intro st' head' rest' hfl' hg'
    exact Allocate_corrupt st' head' rest' hfl' hg'

/-- C3 witness: the concrete pool `d = 0`, `block_size = 1`, `blocks = 1`,
allocating payload address 10. -/
theorem C3_guard_mismatch_aborts_witness :
    (Allocate (initState 0 1 1)).1 = .ok 10 ∧
      ((Free (Allocate (initState 0 1 1)).2 10).1 = .ok ∧
        Free (Free (Allocate (initState 0 1 1)).2 10).2 10 =
          (.corruptedAbort, (Free (Allocate (initState 0 1 1)).2 10).2) ∧
        (∀ st' : AllocState, guardOk st'.mem (10 - pad_bytes) ALLOCATED = false →
          Free st' 10 = (.corruptedAbort, st')) ∧
        ∀ st' : AllocState, ∀ head : Nat, ∀ rest : List Nat,
          st'.free_list = head :: rest →
          guardOk st'.mem (head + vp_size) UNALLOCATED = false →
          Allocate st' = (.error .corruptedBlock, st')) :=
  ⟨rfl, C3_guard_mismatch_aborts (initState 0 1 1) 10 rfl⟩

/-- C7 counterexample: on the concrete pools below, `Free` (raw and typed)
called with a null pointer produces the `std::abort()` outcome, which
terminates the process — not a recoverable NullFree error as the claim
states. -/
theorem C7_null_free_counterexample :
    (Free (initState 0 1 1) 0).1 = .nullAbort ∧
      terminatesProcess (Free (initState 0 1 1) 0).1 = true ∧
      (TFree (initState 0 2 1) 0).1 = .nullAbort ∧
      terminatesProcess (TFree (initState 0 2 1) 0).1 = true :=
  ⟨rfl, rfl, rfl, rfl⟩

/-- C7 amended: calling `Free` (raw or typed) with a null pointer is
detected and terminates the process via `std::abort()` without modifying
any pool state and without running the destructor; no recoverable error is
returned to the caller. -/
theorem C7_null_free_aborts_process (st : AllocState) :
    Free st 0 = (.nullAbort, st) ∧
      TFree st 0 = (.nullAbort, st, 0) ∧
      terminatesProcess FreeResult.nullAbort = true := by
  refine ⟨?_, ?_, rfl⟩ <;> simp [Free, TFree]

theorem stdAlign_spec (a s p : Nat) (ha : 1 ≤ a) :
    ∃ q, stdAlign a s p (a + s) = some q ∧
      q % a = 0 ∧ p ≤ q ∧ q + s ≤ p + (a + s) := by
  have hd : a * ((p + a - 1) / a) + (p + a - 1) % a = p + a - 1 :=
    Nat.div_add_mod _ a
  have hmlt : (p + a - 1) % a < a := Nat.mod_lt _ (by omega)
  have hmod : (p + a - 1) / a * a % a = 0 := Nat.mul_mod_left _ a
  have htt : a * ((p + a - 1) / a) = (p + a - 1) / a * a := by ring
  rw [htt] at hd
  refine ⟨(p + a - 1) / a * a, ?_, hmod, by omega, by omega⟩
  have hfits : (p + a - 1) / a * a + s ≤ p + (a + s) := by omega
  simp [stdAlign, hfits]

/-- C4: with `a = alignof(T) ≥ 1` and `s = sizeof(T) ≥ 1`, so that the
base pool reserves `block_size = a + s`, every pointer a successful typed
`Allocate` returns is a multiple of `a` and the `s` bytes it addresses lie
inside the slot's payload `[raw, raw + (a + s))`; and the typed `Allocate`
can never fail with AllocationFailed (the alignment search always
succeeds thanks to the reserved slack). -/
theorem C4_typed_alignment (a s : Nat) (ha : 1 ≤ a) (hs : 1 ≤ s)
    (ctorOk : Bool) (st : AllocState) :
    (∀ raw, (Allocate st).1 = .ok raw →
      ∀ q st2, TAllocate a s ctorOk st = (.ok q, st2) →
        q % a = 0 ∧ raw ≤ q ∧ q + s ≤ raw + (a + s)) ∧
      (TAllocate a s ctorOk st).1 ≠ .allocationFailed := by
  rcases hA : Allocate st with ⟨r, st'⟩
  cases r with
  | error e =>
      cases e with
      | outOfMemory =>
          constructor
          · intro raw hraw
            simp at hraw
          · simp [TAllocate, hA]
      | corruptedBlock =>
          constructor
          · intro raw hraw
            simp at hraw
          · simp [TAllocate, hA]
  | ok raw0 =>
      obtain ⟨q0, hq0, hmod, hle, hub⟩ := stdAlign_spec a s raw0 ha
      have hT : TAllocate a s ctorOk st =
          if ctorOk then (.ok q0, st') else (.ctorError, st') := by
        simp [TAllocate, hA, AlignCheck, hq0]
      constructor
      · intro raw hraw q st2 hok
        have hraw0 : raw0 = raw := by
          simpa using hraw
        subst hraw0
        rw [hT] at hok
        cases ctorOk with
        | false => simp at hok
        | true =>
            simp only [if_true] at hok
            have hq : q0 = q := by
              have := congrArg Prod.fst hok
              simpa using this
            subst hq
            exact ⟨hmod, hle, hub⟩
      · rw [hT]
        cases ctorOk <;> simp

/-- C4 witness: `alignof(T) = 4`, `sizeof(T) = 12` (the example type in
`main.cpp`) over the fresh pool `d = 0`, `block_size = 16`, `blocks = 10`. -/
theorem C4_typed_alignment_witness :
    ((1 : Nat) ≤ 4 ∧ (1 : Nat) ≤ 12) ∧
      ((∀ raw, (Allocate (initState 0 16 10)).1 = .ok raw →
        ∀ q st2, TAllocate 4 12 true (initState 0 16 10) = (.ok q, st2) →
          q % 4 = 0 ∧ raw ≤ q ∧ q + 12 ≤ raw + (4 + 12)) ∧
        (TAllocate 4 12 true (initState 0 16 10)).1 ≠ .allocationFailed) :=
  ⟨by decide, C4_typed_alignment 4 12 (by decide) (by decide) true (initState 0 16 10)⟩

theorem Inv_init (d bs n : Nat) : Inv d bs n ⟨initState d bs n, []⟩ := by
  refine ⟨(List.range n).reverse, [], ?_, rfl, ?_, ?_, ?_⟩
  · rw [initState_free_list]
    exact (List.map_reverse _ _).symm
  · rw [List.append_nil]
    exact (List.range n).reverse_perm
  · intro i hi j hj
    rw [List.mem_reverse, List.mem_range] at hi
    exact initState_mem_guard d bs n i hi j hj
  · intro i hi
    simp at hi

theorem Free_ok_inv (st : AllocState) (p : Nat) (st' : AllocState)
    (h : Free st p = (.ok, st')) :
    p ≠ 0 ∧ guardOk st.mem (p - pad_bytes) ALLOCATED = true ∧
      st' = push_list
        { st with mem := memsetRange st.mem (p - pad_bytes) UNALLOCATED pad_bytes }
        (p - pad_bytes - vp_size) := by
  by_cases hp : p = 0
  · subst hp
    simp [Free] at h
  · by_cases hg : guardOk st.mem (p - pad_bytes) ALLOCATED = true
    · rw [Free_ok_compute st p hp hg] at h
      have h2 := congrArg Prod.snd h
      exact ⟨hp, hg, h2.symm⟩
    · rw [Free_corrupt_compute st p hp (by simpa using hg)] at h
      simp at h

theorem Inv_step (d bs n : Nat) (s s' : PoolSt) (hstep : Step s s')
    (hinv : Inv d bs n s) : Inv d bs n s' := by
  obtain ⟨fIdx, oIdx, hfl, hout, hperm, hG1, hG2⟩ := hinv
  have hnd : (fIdx ++ oIdx).Nodup := hperm.nodup_iff.2 (List.nodup_range n)
  have hdisj : ∀ x ∈ fIdx, ∀ y ∈ oIdx, x ≠ y := by
    rw [List.nodup_append] at hnd
    intro x hx y hy hxy
    exact hnd.2.2 hx (hxy ▸ hy)
  cases hstep with
  | alloc st out p st2 hA =>
      simp only at hfl hout hG1 hG2
      obtain ⟨head, rest, hfl2, hg, hp, hst2'⟩ := Allocate_ok_inv st p (by rw [hA])
      have hst2 : st2 = (Allocate st).2 := (congrArg Prod.snd hA).symm
      cases fIdx with
      | nil => rw [hfl] at hfl2; simp at hfl2
      | cons i fIdx' =>
          rw [hfl] at hfl2
          simp only [List.map_cons, List.cons.injEq] at hfl2
          obtain ⟨hhead, hrest⟩ := hfl2
          have hpp : p = payloadAddr d bs i := by
            rw [hp, ← hhead, payloadAddr]
          have hmem2 : st2.mem =
              memsetRange st.mem (slotAddr d bs i + vp_size) ALLOCATED pad_bytes := by
            rw [hst2, hst2', hhead]
          have hfl3 : st2.free_list = fIdx'.map (slotAddr d bs) := by
            rw [hst2, hst2', ← hrest]
          have hndc : i ∉ fIdx' ++ oIdx := (List.nodup_cons.1 hnd).1
          refine ⟨fIdx', i :: oIdx, hfl3, ?_, ?_, ?_, ?_⟩
          · simp only [List.map_cons, hout, hpp]
          · exact List.Perm.trans List.perm_middle hperm
          · intro x hx j hj
            have hxi : x ≠ i := by
              intro hxi
              exact hndc (List.mem_append_left _ (hxi ▸ hx))
            rw [hmem2, memsetRange_guard_other st.mem d bs x i j ALLOCATED hxi hj]
            exact hG1 x (List.mem_cons_of_mem i hx) j hj
          · intro x hx j hj
            rw [hmem2]
            rcases List.mem_cons.1 hx with hxi | hxo
            · subst hxi
              exact memsetRange_guard_self st.mem (slotAddr d bs x + vp_size)
                ALLOCATED j hj
            · have hxi : x ≠ i := by
                intro hxi
                exact hndc (List.mem_append_right _ (hxi ▸ hxo))
              rw [memsetRange_guard_other st.mem d bs x i j ALLOCATED hxi hj]
              exact hG2 x hxo j hj
  | free st out p st2 hmemout hF =>
      simp only at hfl hout hG1 hG2
      obtain ⟨hp0, hg, hst2⟩ := Free_ok_inv st p st2 hF
      rw [hout] at hmemout
      obtain ⟨i, hi, hpi⟩ := List.mem_map.1 hmemout
      have hpd : payloadAddr d bs i = slotAddr d bs i + vp_size + pad_bytes := rfl
      have e1 : p - pad_bytes = slotAddr d bs i + vp_size := by omega
      have e2 : p - pad_bytes - vp_size = slotAddr d bs i := by omega
      have hmem2 : st2.mem =
          memsetRange st.mem (slotAddr d bs i + vp_size) UNALLOCATED pad_bytes := by
        rw [hst2, ← e1]
        rfl
      have hfl3 : st2.free_list = (i :: fIdx).map (slotAddr d bs) := by
        rw [hst2]
        simp [push_list, e2, hfl]
      have hndo : oIdx.Nodup := by
        rw [List.nodup_append] at hnd
        exact hnd.2.1
      refine ⟨i :: fIdx, oIdx.erase i, hfl3, ?_, ?_, ?_, ?_⟩
      · simp only
        rw [hout, ← hpi, ← List.map_erase (payloadAddr_injective d bs)]
      · have h1 : List.Perm ((i :: fIdx) ++ oIdx.erase i)
            (fIdx ++ (i :: oIdx.erase i)) := List.perm_middle.symm
        have h2 : List.Perm (fIdx ++ (i :: oIdx.erase i)) (fIdx ++ oIdx) :=
          ((List.perm_cons_erase hi).symm).append_left fIdx
        exact (h1.trans h2).trans hperm
      · intro x hx j hj
        rw [hmem2]
        rcases List.mem_cons.1 hx with hxi | hxf
        · subst hxi
          exact memsetRange_guard_self st.mem (slotAddr d bs x + vp_size)
            UNALLOCATED j hj
        · have hxi : x ≠ i := hdisj x hxf i hi
          rw [memsetRange_guard_other st.mem d bs x i j UNALLOCATED hxi hj]
          exact hG1 x hxf j hj
      · intro x hx j hj
        have hxm := hndo.mem_erase_iff.1 hx
        rw [hmem2, memsetRange_guard_other st.mem d bs x i j UNALLOCATED hxm.1 hj]
        exact hG2 x hxm.2 j hj

theorem Inv_reachable (d bs n : Nat) (s : PoolSt) (h : Reachable d bs n s) :
    Inv d bs n s := by
  have h' : Relation.ReflTransGen Step ⟨initState d bs n, []⟩ s := h
  clear h
  induction h' with
  | refl => exact Inv_init d bs n
  | tail _ hstep ih => exact Inv_step d bs n _ _ hstep ih

/-- C8: in every state reachable from construction by successful
`Allocate`/`Free` operations, every slot on the free list has UNALLOCATED
guard bytes and every outstanding payload handed to a caller has ALLOCATED
guard bytes; and construction itself establishes this by writing the
UNALLOCATED pattern into every slot's guard region and pushing all `n`
slots onto the free list. -/
theorem C8_guard_byte_invariant (d bs n : Nat) (st : AllocState) (out : List Nat)
    (h : Reachable d bs n ⟨st, out⟩) :
    (∀ x ∈ st.free_list, ∀ j < pad_bytes, st.mem (x + vp_size + j) = UNALLOCATED) ∧
      (∀ p ∈ out, ∀ j < pad_bytes, st.mem (p - pad_bytes + j) = ALLOCATED) ∧
      (initState d bs n).free_list = ((List.range n).map (slotAddr d bs)).reverse ∧
      ∀ i < n, ∀ j < pad_bytes,
        (initState d bs n).mem (slotAddr d bs i + vp_size + j) = UNALLOCATED := by
  obtain ⟨fIdx, oIdx, hfl, hout, _, hG1, hG2⟩ := Inv_reachable d bs n ⟨st, out⟩ h
  simp only at hfl hout hG1 hG2
  refine ⟨?_, ?_, initState_free_list d bs n, initState_mem_guard d bs n⟩
  · intro x hx j hj
    rw [hfl] at hx
    obtain ⟨i, hi, rfl⟩ := List.mem_map.1 hx
    exact hG1 i hi j hj
  · intro p hp j hj
    rw [hout] at hp
    obtain ⟨i, hi, rfl⟩ := List.mem_map.1 hp
    have hpd : payloadAddr d bs i = slotAddr d bs i + vp_size + pad_bytes := rfl
    have hvp := vp_size_eq
    have hpad := pad_bytes_eq
    have e : payloadAddr d bs i - pad_bytes + j = slotAddr d bs i + vp_size + j := by
      omega
    rw [e]
    exact hG2 i hi j hj

/-- C8 witness: the freshly constructed pool `d = 0`, `block_size = 1`,
`blocks = 1` is reachable (zero operations). -/
theorem C8_guard_byte_invariant_witness :
    Reachable 0 1 1 ⟨initState 0 1 1, []⟩ ∧
      ((∀ x ∈ (initState 0 1 1).free_list, ∀ j < pad_bytes,
          (initState 0 1 1).mem (x + vp_size + j) = UNALLOCATED) ∧
        (∀ p ∈ ([] : List Nat), ∀ j < pad_bytes,
          (initState 0 1 1).mem (p - pad_bytes + j) = ALLOCATED) ∧
        (initState 0 1 1).free_list = ((List.range 1).map (slotAddr 0 1)).reverse ∧
        ∀ i < 1, ∀ j < pad_bytes,
          (initState 0 1 1).mem (slotAddr 0 1 i + vp_size + j) = UNALLOCATED) :=
  ⟨Relation.ReflTransGen.refl,
    C8_guard_byte_invariant 0 1 1 (initState 0 1 1) [] Relation.ReflTransGen.refl⟩

/-- C9: in every reachable state of a pool with `n` blocks, `CanAllocate`
is true exactly when the free list is non-empty, equivalently exactly when
strictly fewer than `n` allocations are outstanding (successful Allocates
minus successful Frees); `CanAllocate` is a pure function of the state. -/
theorem C9_can_allocate_iff (d bs n : Nat) (st : AllocState) (out : List Nat)
    (h : Reachable d bs n ⟨st, out⟩) :
    (CanAllocate st = true ↔ st.free_list ≠ []) ∧
      (CanAllocate st = true ↔ out.length < n) := by
  obtain ⟨fIdx, oIdx, hfl, hout, hperm, _, _⟩ := Inv_reachable d bs n ⟨st, out⟩ h
  simp only at hfl hout
  have hlen : fIdx.length + oIdx.length = n := by
    have := hperm.length_eq
    simpa using this
  have hfl_len : st.free_list.length = fIdx.length := by
    rw [hfl, List.length_map]
  have hout_len : out.length = oIdx.length := by
    rw [hout, List.length_map]
  constructor
  · simp [CanAllocate, List.isEmpty_iff]
  · rw [CanAllocate, Bool.not_eq_true', List.isEmpty_eq_false_iff_exists_mem]
    constructor
    · intro hne
      obtain ⟨x, hx⟩ := hne
      have : st.free_list.length ≠ 0 := by
        intro h0
        rw [List.length_eq_zero] at h0
        rw [h0] at hx
        exact absurd hx (List.not_mem_nil x)
      omega
    · intro hlt
      have hpos : 0 < st.free_list.length := by omega
      obtain ⟨x, hx⟩ := List.exists_mem_of_length_pos hpos
      exact ⟨x, hx⟩

/-- C9 witness: the freshly constructed pool `d = 0`, `block_size = 1`,
`blocks = 1` is reachable (zero operations). -/
theorem C9_can_allocate_iff_witness :
    Reachable 0 1 1 ⟨initState 0 1 1, []⟩ ∧
      ((CanAllocate (initState 0 1 1) = true ↔ (initState 0 1 1).free_list ≠ []) ∧
        (CanAllocate (initState 0 1 1) = true ↔ ([] : List Nat).length < 1)) :=
  ⟨Relation.ReflTransGen.refl,
    C9_can_allocate_iff 0 1 1 (initState 0 1 1) [] Relation.ReflTransGen.refl⟩

/-- C5, evaluated at the failing input: over the fresh typed pool for a
type with `alignof = sizeof = 1` and one block, a typed `Allocate` whose
constructor throws propagates the error, but the raw slot is not released:
the free list had one slot before the call and is empty afterwards, so
`CanAllocate` is now false even though no object exists.  This contradicts
the claim that the free-list length is unchanged across a failed typed
`Allocate`. -/
theorem C5_ctor_failure_leaks_slot :
    (TAllocate 1 1 false (initState 0 2 1)).1 = .ctorError ∧
      (initState 0 2 1).free_list.length = 1 ∧
      (TAllocate 1 1 false (initState 0 2 1)).2.free_list.length = 0 ∧
      CanAllocate (TAllocate 1 1 false (initState 0 2 1)).2 = false :=
  ⟨rfl, rfl, rfl, rfl⟩

/-- C6, evaluated at the failing input: typed pool for `alignof(T) = 4`,
`sizeof(T) = 12` (the `MyStruct` of `main.cpp`), ten blocks, 16-byte
aligned arena base.  The first typed `Allocate` returns 244 (slot 9's
payload, already aligned).  The second raw slot's payload is 218 (slot 8),
misaligned for `T`, so the typed `Allocate` returns the adjusted address
220.  The typed `Free` then passes 220 — not the raw payload address 218 —
to the pool's `Free`, whose guard check reads payload bytes instead of the
guard region and aborts the process as a corrupted block (after running
the destructor once), with the pool state unchanged; a raw `Free` of the
true payload address 218 would have succeeded. -/
theorem C6_typed_free_passes_adjusted_pointer :
    (TAllocate 4 12 true (initState 0 16 10)).1 = .ok 244 ∧
      payloadAddr 0 16 9 = 244 ∧
      (Allocate ((TAllocate 4 12 true (initState 0 16 10)).2)).1 = .ok 218 ∧
      payloadAddr 0 16 8 = 218 ∧
      (TAllocate 4 12 true ((TAllocate 4 12 true (initState 0 16 10)).2)).1 =
        .ok 220 ∧
      (TFree ((TAllocate 4 12 true
          ((TAllocate 4 12 true (initState 0 16 10)).2)).2) 220).1 =
        .corruptedAbort ∧
      terminatesProcess (TFree ((TAllocate 4 12 true
          ((TAllocate 4 12 true (initState 0 16 10)).2)).2) 220).1 = true ∧
      (TFree ((TAllocate 4 12 true
          ((TAllocate 4 12 true (initState 0 16 10)).2)).2) 220).2.2 = 1 ∧
      (Free ((TAllocate 4 12 true
          ((TAllocate 4 12 true (initState 0 16 10)).2)).2) 218).1 = .ok :=
  ⟨rfl, rfl, rfl, rfl, rfl, rfl, rfl, rfl, rfl⟩

end ATL
